import Mathlib

/-!
Verification of `debug_ptrace.c`: safe word reads, construction and teardown of
the ptrace context, and address-to-symbol resolution.

A shallow embedding of `src/debug_ptrace.c`.

* Addresses (`uintptr_t`) and words (`uint32_t`) are natural numbers; the word
  read is reduced modulo `2 ^ 32`.  The width of `uintptr_t` is that of the
  platform the code is built for; it is a parameter (`Env.uintptr_bits`) and the
  pointer subtraction wraps at `2 ^ uintptr_bits`.
* The singly linked `map_info_t` list is a `List MapInfo`; a node pointer is a
  position in that list.  In-place updates of `mi->data` are explicit state
  passing: every loop carries the whole current list.
* Calls that leave the translation unit (mapping search, memory dereference,
  allocator, symbol loader, release functions) are answered by an environment
  `Env` and recorded, in program order, in a list of `Event`s.
* The diagnostic `__libc_format_log` calls have no influence on any result and
  are not recorded.
-/

namespace DebugPtrace

/-! ## Data model -/

/-- Handle of a loaded symbol table (`symbol_table_t*`); the table itself is
owned by the external symbol loader. -/
structure SymbolTable where
  id : Nat
deriving DecidableEq, Repr

/-- Handle of a symbol (`const symbol_t*`) returned by the external lookup. -/
structure Symbol where
  id : Nat
deriving DecidableEq, Repr

/-- The extension record `map_info_data_t` of `debug_ptrace.c` (build without
`__arm__`): one nullable symbol-table pointer. -/
structure MapInfoData where
  symbol_table : Option SymbolTable
deriving DecidableEq, Repr

/-- Modelled from the spec: the record `map_info_t`, declared in
`debug_map_info.h` (not part of the sources at hand).  The spec gives a mapping
a start address, a size, a readable flag, an executable flag, a backing-file
path that may be empty, and an extension slot; `debug_ptrace.c` uses the fields
`start`, `is_readable`, `is_executable`, `name`, `data` and `next`.  The `next`
link is the list structure. -/
structure MapInfo where
  start : Nat
  size : Nat
  is_readable : Bool
  is_executable : Bool
  name : String
  data : Option MapInfoData
deriving DecidableEq, Repr

/-- The structure `memory_t`: how to access memory from a process. -/
structure Memory where
  map_info_list : List MapInfo
deriving DecidableEq, Repr

/-- Modelled from the spec: the record `ptrace_context_t`, declared in
`debug_ptrace.h` (not part of the sources at hand); the only field used is
`map_info_list`. -/
structure PtraceContext where
  map_info_list : List MapInfo
deriving DecidableEq, Repr

/-- Calls leaving `debug_ptrace.c`, in the order in which they are made. -/
inductive Event where
  | is_readable_map (ptr : Nat)
  | read_word (ptr : Nat)
  | dlcalloc_context
  | dlcalloc_data (idx : Nat)
  | load_map_info_list (pid : Int)
  | load_symbol_table (name : String)
  | find_map_info (addr : Nat)
  | find_symbol (table : SymbolTable) (offset : Nat)
  | free_symbol_table (table : SymbolTable)
  | dlfree (data : MapInfoData)
  | free_map_info_list (list : List MapInfo)
deriving DecidableEq, Repr

/-- The platform and the answers of the surrounding system.
* `uintptr_bits` is the width in bits of `uintptr_t` on the platform the code
  is built for (32, 64, ...); the source does not fix it;
* `word a` is the content of the 32-bit word at address `a`;
* `dlcalloc_context` tells whether the allocation of the context succeeds;
* `dlcalloc_data i` tells whether the allocation of the extension record
  requested while the mapping at position `i` is processed succeeds (at most
  one such request is made per mapping, so keying the outcomes by position
  loses no behaviour);
* `load_map_info_list`, `load_symbol_table` and `find_symbol` are the external
  enumerator, symbol loader and symbol lookup. -/
structure Env where
  uintptr_bits : Nat
  word : Nat → Nat
  dlcalloc_context : Bool
  dlcalloc_data : Nat → Bool
  load_map_info_list : Int → List MapInfo
  load_symbol_table : String → Option SymbolTable
  find_symbol : SymbolTable → Nat → Option Symbol

/-- The constant `ELF_MAGIC`. -/
def ELF_MAGIC : Nat := 0x464C457f

/-- Subtraction of two `uintptr_t` values of `bits` bits, wrapping as unsigned
C arithmetic. -/
def uintptr_sub (bits a b : Nat) : Nat :=
  (a % 2 ^ bits + 2 ^ bits - b % 2 ^ bits) % 2 ^ bits

/-! ## Mapping search (from `debug_map_info`) -/

/-- Modelled from the spec: the containment rule of the mapping search, which
is part of `debug_map_info.c` (not part of the sources at hand): a mapping
contains `address` when it lies within `[start, start+size)`. -/
def map_contains (mi : MapInfo) (addr : Nat) : Bool :=
  decide (mi.start ≤ addr) && decide (addr < mi.start + mi.size)

/-- Modelled from the spec: the function `is_readable_map` of
`debug_map_info.c` (not part of the sources at hand).  Spec 4.1: it "searches
the mapping sequence for a mapping that (a) contains `address` within
`[start, start+size)` and (b) is marked readable". -/
def is_readable_map (map_info_list : List MapInfo) (addr : Nat) : Bool :=
  map_info_list.any (fun mi => map_contains mi addr && mi.is_readable)

/-- Modelled from the spec: the function `find_map_info` of `debug_map_info.c`
(not part of the sources at hand).  Spec 4.5: "search the context's mapping
sequence for the (at most one) mapping containing `address`, using the same
containment rule as 4.1 (no readability requirement here)". -/
def find_map_info (map_info_list : List MapInfo) (addr : Nat) : Option MapInfo :=
  map_info_list.find? (fun mi => map_contains mi addr)

/-! ## Memory accessor -/

/-- Result of `try_get_word`: the returned flag, the value stored through
`out_value`, and the external calls made. -/
structure WordRead where
  ok : Bool
  out_value : Nat
  trace : List Event
deriving DecidableEq, Repr

/-- The function `init_memory`. -/
def init_memory (map_info_list : List MapInfo) : Memory :=
  { map_info_list := map_info_list }

/-- The function `try_get_word`: reads a word of memory safely. -/
def try_get_word (env : Env) (memory : Memory) (ptr : Nat) : WordRead :=
  if ptr &&& 3 ≠ 0 then
    { ok := false, out_value := 0xffffffff, trace := [] }
  else if !is_readable_map memory.map_info_list ptr then
    { ok := false, out_value := 0xffffffff, trace := [Event.is_readable_map ptr] }
  else
    { ok := true, out_value := env.word ptr % 2 ^ 32,
      trace := [Event.is_readable_map ptr, Event.read_word ptr] }

/-- The function `try_get_word_ptrace`. -/
def try_get_word_ptrace (env : Env) (map_info_list : List MapInfo) (ptr : Nat) : WordRead :=
  try_get_word env (init_memory map_info_list) ptr

/-! ## Context construction -/

/-- The function `load_ptrace_map_info_data`, applied to the node `mi` at
position `idx` of the list; returns the node after the call and the external
calls made.  `dlcalloc` zero-fills the record, so its `symbol_table` stays null
unless the loader is asked. -/
def load_ptrace_map_info_data (env : Env) (map_info_list : List MapInfo) (idx : Nat)
    (mi : MapInfo) : MapInfo × List Event :=
  if mi.is_executable && mi.is_readable then
    let r := try_get_word_ptrace env map_info_list mi.start
    if r.ok && r.out_value == ELF_MAGIC then
      if env.dlcalloc_data idx then
        if mi.name ≠ "" then
          ({ mi with data := some { symbol_table := env.load_symbol_table mi.name } },
            r.trace ++ [Event.dlcalloc_data idx, Event.load_symbol_table mi.name])
        else
          ({ mi with data := some { symbol_table := none } },
            r.trace ++ [Event.dlcalloc_data idx])
      else
        (mi, r.trace ++ [Event.dlcalloc_data idx])
    else
      (mi, r.trace)
  else
    (mi, [])

/-- The loop `for (mi = context->map_info_list; mi; mi = mi->next)` of
`load_ptrace_context`.  `done` are the nodes already visited (in their current
state), the second list starts at `mi`; the list handed to
`load_ptrace_map_info_data` is the whole current list. -/
def load_ptrace_context_loop (env : Env) :
    List MapInfo → List MapInfo → List Event → List MapInfo × List Event
  | done, [], tr => (done, tr)
  | done, mi :: rest, tr =>
    let r := load_ptrace_map_info_data env (done ++ mi :: rest) done.length mi
    load_ptrace_context_loop env (done ++ [r.1]) rest (tr ++ r.2)

/-- The function `load_ptrace_context`; `none` is the null pointer. -/
def load_ptrace_context (env : Env) (pid : Int) : Option PtraceContext × List Event :=
  if env.dlcalloc_context then
    let r := load_ptrace_context_loop env [] (env.load_map_info_list pid)
      [Event.dlcalloc_context, Event.load_map_info_list pid]
    (some { map_info_list := r.1 }, r.2)
  else
    (none, [Event.dlcalloc_context])

/-! ## Teardown -/

/-- The function `free_ptrace_map_info_data`. -/
def free_ptrace_map_info_data (mi : MapInfo) : MapInfo × List Event :=
  match mi.data with
  | some data =>
    ({ mi with data := none },
      (match data.symbol_table with
        | some t => [Event.free_symbol_table t]
        | none => []) ++ [Event.dlfree data])
  | none => (mi, [])

/-- The loop of `free_ptrace_context`, with the visited nodes in `done`. -/
def free_ptrace_context_loop :
    List MapInfo → List MapInfo → List Event → List MapInfo × List Event
  | done, [], tr => (done, tr)
  | done, mi :: rest, tr =>
    let r := free_ptrace_map_info_data mi
    free_ptrace_context_loop (done ++ [r.1]) rest (tr ++ r.2)

/-- The function `free_ptrace_context`; returns the mapping list as it is when
it is handed to `free_map_info_list`, and the external calls made. -/
def free_ptrace_context (context : PtraceContext) : List MapInfo × List Event :=
  let r := free_ptrace_context_loop [] context.map_info_list []
  (r.1, r.2 ++ [Event.free_map_info_list r.1])

/-! ## Resolution -/

/-- Result of `find_symbol_ptrace`: the two out-parameters and the external
calls made. -/
structure Resolved where
  out_map_info : Option MapInfo
  out_symbol : Option Symbol
  trace : List Event
deriving DecidableEq, Repr

/-- The function `find_symbol_ptrace`. -/
def find_symbol_ptrace (env : Env) (context : PtraceContext) (addr : Nat) : Resolved :=
  match find_map_info context.map_info_list addr with
  | some mi =>
    match mi.data with
    | some data =>
      match data.symbol_table with
      | some table =>
        { out_map_info := some mi,
          out_symbol := env.find_symbol table (uintptr_sub env.uintptr_bits addr mi.start),
          trace := [Event.find_map_info addr,
                    Event.find_symbol table (uintptr_sub env.uintptr_bits addr mi.start)] }
      | none => { out_map_info := some mi, out_symbol := none,
                  trace := [Event.find_map_info addr] }
    | none => { out_map_info := some mi, out_symbol := none,
                trace := [Event.find_map_info addr] }
  | none => { out_map_info := none, out_symbol := none,
              trace := [Event.find_map_info addr] }

/-! ## Two-phase construction (spec, design notes) -/

/-- Detection pass of the two-phase construction: every mapping of `rest`
(the mappings from position `idx` on) is examined against the same, fixed list
`original`. -/
def detect_pass (env : Env) (original : List MapInfo) : Nat → List MapInfo → List MapInfo
  | _, [] => []
  | idx, mi :: rest =>
    (load_ptrace_map_info_data env original idx mi).1 :: detect_pass env original (idx + 1) rest

/-- The two-phase construction the spec proposes in place of the loop of
`load_ptrace_context`: "build the immutable mapping list first, then run
detection as a pure read-only pass over the completed list". -/
def load_ptrace_context_two_phase (env : Env) (pid : Int) : Option PtraceContext :=
  if env.dlcalloc_context then
    let original := env.load_map_info_list pid
    some { map_info_list := detect_pass env original 0 original }
  else
    none

/-- One call `load_ptrace_map_info_data(list, mi)` for the node at position
`i` of the current list, with the in-place update of that node; a position
outside the list is no node and nothing happens. -/
def load_ptrace_map_info_data_at (env : Env) (cur : List MapInfo) (i : Nat) : List MapInfo :=
  match cur[i]? with
  | some mi => cur.set i (load_ptrace_map_info_data env cur i mi).1
  | none => cur

/-- The loop of `load_ptrace_context` with the visiting order made a
parameter: the positions of `order` are processed one after the other, each
call reading through the list as the earlier calls left it.  The source visits
`0, 1, 2, ...`; this variant serves to state that the order is immaterial. -/
def load_ptrace_context_in_order (env : Env) (order : List Nat) (cur : List MapInfo) :
    List MapInfo :=
  order.foldl (load_ptrace_map_info_data_at env) cur

/-! ## Properties used in the statements -/

/-- The mapping with its extension slot emptied: what the enumerator knows
about it (start, size, flags, path). -/
def strip (mi : MapInfo) : MapInfo := { mi with data := none }

/-- The symbol table attached to a mapping, if any: the extension slot is
filled and the record in it holds a table. -/
def attached_table (mi : MapInfo) : Option SymbolTable :=
  match mi.data with
  | some data => data.symbol_table
  | none => none

/-- Invariant of the construction, in whatever order it proceeds: the current
list differs from the enumerated one in extension slots only, and each node is
either as enumerated or as detection against the enumerated list leaves it. -/
def LoadInv (env : Env) (l cur : List MapInfo) : Prop :=
  cur.map strip = l.map strip ∧
  ∀ j, cur[j]? = l[j]? ∨
    cur[j]? = (l[j]?).map (fun mi => (load_ptrace_map_info_data env l j mi).1)

/-- Two mappings share no address. -/
def disjoint_maps (a b : MapInfo) : Prop :=
  ∀ x, ¬ (map_contains a x = true ∧ map_contains b x = true)

/-- The invariant of the data model: the mappings of a sequence do not
overlap. -/
def NonOverlapping (map_info_list : List MapInfo) : Prop :=
  map_info_list.Pairwise disjoint_maps

/-- The address lies in a mapping of the list that is marked readable. -/
def InReadableMap (map_info_list : List MapInfo) (addr : Nat) : Prop :=
  ∃ mi ∈ map_info_list, mi.is_readable = true ∧ mi.start ≤ addr ∧ addr < mi.start + mi.size

/-- The tables handed to `free_symbol_table`, in call order. -/
def freed_tables (trace : List Event) : List SymbolTable :=
  trace.filterMap (fun e => match e with
    | Event.free_symbol_table t => some t
    | _ => none)

/-- The extension records handed to `dlfree`, in call order. -/
def freed_records (trace : List Event) : List MapInfoData :=
  trace.filterMap (fun e => match e with
    | Event.dlfree d => some d
    | _ => none)

/-- The event is a release of a symbol table or of an extension record. -/
def is_record_release (e : Event) : Bool :=
  match e with
  | Event.free_symbol_table _ => true
  | Event.dlfree _ => true
  | _ => false

/-! ## Concrete scenario

The scenario of the spec: mappings `[0x1000,0x2000)` with path `/lib/a.so`,
whose first word is the module signature, and `[0x2000,0x3000)` with path
`/lib/b.so`, whose first word is something else; both executable and
readable. -/

/-- First mapping of the scenario, as enumerated. -/
def mapA : MapInfo :=
  { start := 0x1000, size := 0x1000, is_readable := true, is_executable := true,
    name := "/lib/a.so", data := none }

/-- Second mapping of the scenario, as enumerated. -/
def mapB : MapInfo :=
  { start := 0x2000, size := 0x1000, is_readable := true, is_executable := true,
    name := "/lib/b.so", data := none }

/-- Environment of the scenario, on a platform with 32-bit pointers: every
allocation succeeds and the loader knows a table for `/lib/a.so` only. -/
def scenarioEnv : Env :=
  { uintptr_bits := 32
    word := fun a => if a = 0x1000 then ELF_MAGIC else 0
    dlcalloc_context := true
    dlcalloc_data := fun _ => true
    load_map_info_list := fun _ => [mapA, mapB]
    load_symbol_table := fun p => if p = "/lib/a.so" then some { id := 1 } else none
    find_symbol := fun t off => if t.id = 1 ∧ 0x40 ≤ off ∧ off < 0x80 then some { id := 7 } else none }

/-- The scenario with an allocator that refuses every extension record. -/
def noRecordEnv : Env :=
  { scenarioEnv with dlcalloc_data := fun _ => false }

/-- A mapping like `mapA` but without a backing-file path. -/
def mapAnon : MapInfo :=
  { start := 0x1000, size := 0x1000, is_readable := true, is_executable := true,
    name := "", data := none }

/-- The scenario with the single, path-less mapping `mapAnon`. -/
def anonEnv : Env :=
  { scenarioEnv with load_map_info_list := fun _ => [mapAnon] }

/-- The first mapping of the scenario once its symbol table is attached. -/
def mapA_loaded : MapInfo :=
  { mapA with data := some { symbol_table := some { id := 1 } } }

/-- The context that `load_ptrace_context` builds in the scenario. -/
def scenarioContext : PtraceContext :=
  { map_info_list := [mapA_loaded, mapB] }

/-- A mapping of 8 GiB starting at `0x1000`, with a symbol table attached. -/
def mapWide : MapInfo :=
  { start := 0x1000, size := 0x200000000, is_readable := true, is_executable := true,
    name := "/lib/wide.so", data := some { symbol_table := some { id := 1 } } }

/-- A context holding the single mapping `mapWide`. -/
def wideContext : PtraceContext :=
  { map_info_list := [mapWide] }

/-- The scenario on a platform with 64-bit pointers. -/
def wideEnv : Env :=
  { scenarioEnv with uintptr_bits := 64 }

/-! ## Helper lemmas -/

theorem and_three_ne_zero_iff (ptr : Nat) : ptr &&& 3 ≠ 0 ↔ ptr % 4 ≠ 0 := by
  have h := Nat.and_pow_two_sub_one_eq_mod ptr 2
  norm_num at h
  rw [h]

theorem map_contains_iff (mi : MapInfo) (addr : Nat) :
    map_contains mi addr = true ↔ mi.start ≤ addr ∧ addr < mi.start + mi.size := by
  simp [map_contains]

theorem is_readable_map_iff (l : List MapInfo) (addr : Nat) :
    is_readable_map l addr = true ↔ InReadableMap l addr := by
  unfold is_readable_map InReadableMap
  rw [List.any_eq_true]
  constructor
  · rintro ⟨mi, hmem, h⟩
    rw [Bool.and_eq_true, map_contains_iff] at h
    exact ⟨mi, hmem, h.2, h.1⟩
  · rintro ⟨mi, hmem, hr, hc⟩
    refine ⟨mi, hmem, ?_⟩
    rw [Bool.and_eq_true, map_contains_iff]
    exact ⟨hc, hr⟩

/-! ## Helper lemmas: construction loop -/

theorem is_readable_map_strip (l l2 : List MapInfo) (addr : Nat)
    (h : l.map strip = l2.map strip) : is_readable_map l addr = is_readable_map l2 addr := by
  have key : ∀ k : List MapInfo, is_readable_map k addr = is_readable_map (k.map strip) addr := by
    intro k
    induction k with
    | nil => rfl
    | cons a t ih =>
      unfold is_readable_map at ih ⊢
      simp only [List.map_cons, List.any_cons, ih]
      rfl
  rw [key l, key l2, h]

theorem load_ptrace_map_info_data_congr (env : Env) (l l2 : List MapInfo) (idx : Nat)
    (mi : MapInfo) (h : l.map strip = l2.map strip) :
    load_ptrace_map_info_data env l idx mi = load_ptrace_map_info_data env l2 idx mi := by
  have hw : try_get_word_ptrace env l mi.start = try_get_word_ptrace env l2 mi.start := by
    unfold try_get_word_ptrace try_get_word init_memory
    simp only [is_readable_map_strip l l2 mi.start h]
  unfold load_ptrace_map_info_data
  rw [hw]

theorem strip_load_ptrace_map_info_data (env : Env) (l : List MapInfo) (idx : Nat)
    (mi : MapInfo) : strip (load_ptrace_map_info_data env l idx mi).1 = strip mi := by
  unfold load_ptrace_map_info_data
  dsimp only
  split_ifs <;> rfl

theorem load_ptrace_context_loop_eq (env : Env) (rest : List MapInfo) :
    ∀ (done done0 : List MapInfo) (tr : List Event), done.map strip = done0.map strip →
      (load_ptrace_context_loop env done rest tr).1 =
        done ++ detect_pass env (done0 ++ rest) done.length rest := by
  induction rest with
  | nil =>
    intro done done0 tr _
    simp [load_ptrace_context_loop, detect_pass]
  | cons mi rest ih =>
    intro done done0 tr h
    have hcur : (done ++ mi :: rest).map strip = (done0 ++ mi :: rest).map strip := by
      rw [List.map_append, List.map_append, h]
    have hstep : (done ++ [(load_ptrace_map_info_data env (done ++ mi :: rest) done.length mi).1]).map
        strip = (done0 ++ [mi]).map strip := by
      rw [List.map_append, List.map_append, h]
      simp [strip_load_ptrace_map_info_data]
    have ih2 := ih _ (done0 ++ [mi]) (tr ++ (load_ptrace_map_info_data env (done ++ mi :: rest)
      done.length mi).2) hstep
    rw [load_ptrace_context_loop]
    simp only [] at ih2 ⊢
    rw [ih2, load_ptrace_map_info_data_congr env _ _ done.length mi hcur]
    simp [detect_pass]

theorem detect_pass_length (env : Env) (original : List MapInfo) (rest : List MapInfo) :
    ∀ idx, (detect_pass env original idx rest).length = rest.length := by
  induction rest with
  | nil => intro idx; rfl
  | cons mi rest ih => intro idx; simp [detect_pass, ih]

theorem detect_pass_getElem? (env : Env) (original : List MapInfo) (rest : List MapInfo) :
    ∀ (idx i : Nat), (detect_pass env original idx rest)[i]? =
      (rest[i]?).map (fun mi => (load_ptrace_map_info_data env original (idx + i) mi).1) := by
  induction rest with
  | nil => intro idx i; simp [detect_pass]
  | cons mi rest ih =>
    intro idx i
    cases i with
    | zero => simp [detect_pass]
    | succ j =>
      simp only [detect_pass, List.getElem?_cons_succ, ih]
      have : idx + 1 + j = idx + (j + 1) := by omega
      rw [this]

theorem load_ptrace_context_list (env : Env) (pid : Int) (h : env.dlcalloc_context = true) :
    (load_ptrace_context env pid).1 =
      some { map_info_list :=
        detect_pass env (env.load_map_info_list pid) 0 (env.load_map_info_list pid) } := by
  unfold load_ptrace_context
  rw [if_pos h]
  have := load_ptrace_context_loop_eq env (env.load_map_info_list pid) [] []
    [Event.dlcalloc_context, Event.load_map_info_list pid] rfl
  simp only [List.nil_append, List.length_nil] at this
  simp only [this]

theorem load_ptrace_map_info_data_attach (env : Env) (l : List MapInfo) (idx : Nat)
    (mi : MapInfo) (hx : mi.is_executable = true) (hr : mi.is_readable = true)
    (hok : (try_get_word_ptrace env l mi.start).ok = true)
    (hv : (try_get_word_ptrace env l mi.start).out_value = ELF_MAGIC)
    (ha : env.dlcalloc_data idx = true) :
    (load_ptrace_map_info_data env l idx mi).1 =
      { mi with data := some { symbol_table :=
          if mi.name ≠ "" then env.load_symbol_table mi.name else none } } := by
  unfold load_ptrace_map_info_data
  dsimp only
  simp only [hx, hr, hok, hv, ha, Bool.and_self, beq_self_eq_true, if_true]
  split_ifs <;> rfl

theorem load_ptrace_map_info_data_skip (env : Env) (l : List MapInfo) (idx : Nat)
    (mi : MapInfo)
    (h : mi.is_executable = false ∨ mi.is_readable = false ∨
      (try_get_word_ptrace env l mi.start).ok = false ∨
      (try_get_word_ptrace env l mi.start).out_value ≠ ELF_MAGIC ∨
      env.dlcalloc_data idx = false) :
    (load_ptrace_map_info_data env l idx mi).1 = mi := by
  have hb : (try_get_word_ptrace env l mi.start).out_value ≠ ELF_MAGIC →
      ((try_get_word_ptrace env l mi.start).out_value == ELF_MAGIC) = false := by
    intro hne
    rw [beq_eq_false_iff_ne]
    exact hne
  unfold load_ptrace_map_info_data
  dsimp only
  split_ifs with h1 h2 h3 h4
  · exfalso
    rw [Bool.and_eq_true] at h1 h2
    rcases h with h | h | h | h | h
    · rw [h] at h1; exact Bool.noConfusion h1.1
    · rw [h] at h1; exact Bool.noConfusion h1.2
    · rw [h] at h2; exact Bool.noConfusion h2.1
    · rw [hb h] at h2; exact Bool.noConfusion h2.2
    · rw [h] at h3; exact Bool.noConfusion h3
  · exfalso
    rw [Bool.and_eq_true] at h1 h2
    rcases h with h | h | h | h | h
    · rw [h] at h1; exact Bool.noConfusion h1.1
    · rw [h] at h1; exact Bool.noConfusion h1.2
    · rw [h] at h2; exact Bool.noConfusion h2.1
    · rw [hb h] at h2; exact Bool.noConfusion h2.2
    · rw [h] at h3; exact Bool.noConfusion h3
  · rfl
  · rfl
  · rfl

theorem try_get_word_ptrace_value (env : Env) (l : List MapInfo) (ptr : Nat) :
    (try_get_word_ptrace env l ptr).ok = false ∨
      (try_get_word_ptrace env l ptr).out_value = env.word ptr % 2 ^ 32 := by
  unfold try_get_word_ptrace try_get_word
  split_ifs
  · left; rfl
  · left; rfl
  · right; rfl

theorem try_get_word_ptrace_ok (env : Env) (l : List MapInfo) (ptr : Nat)
    (ha : ptr % 4 = 0) (hin : InReadableMap l ptr) :
    (try_get_word_ptrace env l ptr).ok = true ∧
      (try_get_word_ptrace env l ptr).out_value = env.word ptr % 2 ^ 32 := by
  have h3 : ¬ (ptr &&& 3 ≠ 0) := by
    rw [and_three_ne_zero_iff]
    exact not_not.mpr ha
  have hr := (is_readable_map_iff l ptr).mpr hin
  unfold try_get_word_ptrace try_get_word init_memory
  simp only [if_neg h3, hr]
  exact ⟨rfl, rfl⟩

theorem load_ptrace_context_getElem? (env : Env) (pid : Int) (ctx : PtraceContext)
    (h : (load_ptrace_context env pid).1 = some ctx) (i : Nat) :
    ctx.map_info_list[i]? = ((env.load_map_info_list pid)[i]?).map
      (fun mi => (load_ptrace_map_info_data env (env.load_map_info_list pid) i mi).1) := by
  have hc : env.dlcalloc_context = true := by
    by_contra hc
    unfold load_ptrace_context at h
    rw [if_neg hc] at h
    exact Option.noConfusion h
  rw [load_ptrace_context_list env pid hc] at h
  have hctx : ctx = PtraceContext.mk
      (detect_pass env (env.load_map_info_list pid) 0 (env.load_map_info_list pid)) :=
    (Option.some.inj h).symm
  rw [hctx]
  simp only [detect_pass_getElem?, Nat.zero_add]

theorem load_ptrace_map_info_data_cases (env : Env) (l : List MapInfo) (idx : Nat)
    (mi : MapInfo) :
    ((load_ptrace_map_info_data env l idx mi).1 = mi ∧
      (mi.is_executable = false ∨ mi.is_readable = false ∨
        (try_get_word_ptrace env l mi.start).ok = false ∨
        (try_get_word_ptrace env l mi.start).out_value ≠ ELF_MAGIC ∨
        env.dlcalloc_data idx = false)) ∨
    ((load_ptrace_map_info_data env l idx mi).1 =
        { mi with data := some { symbol_table :=
            if mi.name ≠ "" then env.load_symbol_table mi.name else none } } ∧
      (mi.is_executable = true ∧ mi.is_readable = true ∧
        (try_get_word_ptrace env l mi.start).ok = true ∧
        (try_get_word_ptrace env l mi.start).out_value = ELF_MAGIC ∧
        env.dlcalloc_data idx = true)) := by
  by_cases hp : mi.is_executable = true ∧ mi.is_readable = true ∧
      (try_get_word_ptrace env l mi.start).ok = true ∧
      (try_get_word_ptrace env l mi.start).out_value = ELF_MAGIC ∧
      env.dlcalloc_data idx = true
  · right
    obtain ⟨hx, hr, hok, hv, ha⟩ := hp
    exact ⟨load_ptrace_map_info_data_attach env l idx mi hx hr hok hv ha, hx, hr, hok, hv, ha⟩
  · left
    have hq : mi.is_executable = false ∨ mi.is_readable = false ∨
        (try_get_word_ptrace env l mi.start).ok = false ∨
        (try_get_word_ptrace env l mi.start).out_value ≠ ELF_MAGIC ∨
        env.dlcalloc_data idx = false := by
      by_contra hc
      simp only [not_or, Bool.not_eq_false, ne_eq, not_not] at hc
      exact hp hc
    exact ⟨load_ptrace_map_info_data_skip env l idx mi hq, hq⟩

/-! ## Helper lemmas: mapping search and pointer arithmetic -/

theorem find_map_info_some (l : List MapInfo) (addr : Nat) (m : MapInfo)
    (h : find_map_info l addr = some m) :
    m ∈ l ∧ m.start ≤ addr ∧ addr < m.start + m.size := by
  unfold find_map_info at h
  have hc : map_contains m addr = true :=
    List.find?_some (p := fun mi => map_contains mi addr) h
  exact ⟨List.mem_of_find?_eq_some h, (map_contains_iff m addr).mp hc⟩

theorem find_map_info_none_iff (l : List MapInfo) (addr : Nat) :
    find_map_info l addr = none ↔
      ∀ m ∈ l, ¬ (m.start ≤ addr ∧ addr < m.start + m.size) := by
  unfold find_map_info
  rw [List.find?_eq_none]
  constructor
  · intro h m hm hc
    exact h m hm ((map_contains_iff m addr).mpr hc)
  · intro h m hm hc
    exact h m hm ((map_contains_iff m addr).mp hc)

theorem find_map_info_of_mem (l : List MapInfo) (addr : Nat) (m : MapInfo) :
    NonOverlapping l → m ∈ l → map_contains m addr = true → find_map_info l addr = some m := by
  induction l with
  | nil =>
    intro _ hm _
    exact absurd hm (List.not_mem_nil m)
  | cons a t ih =>
    intro hdis hm hc
    unfold NonOverlapping at hdis
    rw [List.pairwise_cons] at hdis
    rcases List.mem_cons.mp hm with rfl | hmt
    · unfold find_map_info
      rw [List.find?_cons, hc]
    · have ha : map_contains a addr = false := by
        rw [← Bool.not_eq_true]
        intro hca
        exact hdis.1 m hmt addr ⟨hca, hc⟩
      have := ih hdis.2 hmt hc
      unfold find_map_info at this ⊢
      rw [List.find?_cons, ha]
      exact this

theorem uintptr_sub_eq (bits a b : Nat) (hle : b ≤ a) (ha : a < 2 ^ bits) :
    uintptr_sub bits a b = a - b := by
  unfold uintptr_sub
  have hb : b < 2 ^ bits := lt_of_le_of_lt hle ha
  rw [Nat.mod_eq_of_lt ha, Nat.mod_eq_of_lt hb]
  have h1 : a + 2 ^ bits - b = (a - b) + 2 ^ bits := by omega
  rw [h1, Nat.add_mod_right]
  exact Nat.mod_eq_of_lt (lt_of_le_of_lt (Nat.sub_le a b) ha)

/-! ## Helper lemmas: teardown loop -/

theorem free_ptrace_map_info_data_fst (mi : MapInfo) :
    (free_ptrace_map_info_data mi).1 = strip mi := by
  cases mi with
  | mk start size r x name data =>
    cases data <;> rfl

theorem freed_tables_free_ptrace_map_info_data (mi : MapInfo) :
    freed_tables (free_ptrace_map_info_data mi).2 = (attached_table mi).toList := by
  cases mi with
  | mk start size r x name data =>
    cases data with
    | none => rfl
    | some d =>
      cases d with
      | mk st => cases st <;> rfl

theorem freed_records_free_ptrace_map_info_data (mi : MapInfo) :
    freed_records (free_ptrace_map_info_data mi).2 = mi.data.toList := by
  cases mi with
  | mk start size r x name data =>
    cases data with
    | none => rfl
    | some d =>
      cases d with
      | mk st => cases st <;> rfl

theorem is_record_release_free_ptrace_map_info_data (mi : MapInfo) :
    ∀ e ∈ (free_ptrace_map_info_data mi).2, is_record_release e = true := by
  cases mi with
  | mk start size r x name data =>
    cases data with
    | none => intro e he; exact absurd he (List.not_mem_nil e)
    | some d =>
      cases d with
      | mk st =>
        cases st <;> simp [free_ptrace_map_info_data, is_record_release]

theorem free_ptrace_context_loop_eq (rest : List MapInfo) :
    ∀ (done : List MapInfo) (tr : List Event),
      (free_ptrace_context_loop done rest tr).1 = done ++ rest.map strip ∧
      freed_tables (free_ptrace_context_loop done rest tr).2 =
        freed_tables tr ++ rest.filterMap attached_table ∧
      freed_records (free_ptrace_context_loop done rest tr).2 =
        freed_records tr ++ rest.filterMap (fun mi => mi.data) ∧
      ((∀ e ∈ tr, is_record_release e = true) →
        ∀ e ∈ (free_ptrace_context_loop done rest tr).2, is_record_release e = true) := by
  induction rest with
  | nil =>
    intro done tr
    simp [free_ptrace_context_loop]
  | cons mi rest ih =>
    intro done tr
    rw [free_ptrace_context_loop]
    obtain ⟨h1, h2, h3, h4⟩ := ih (done ++ [(free_ptrace_map_info_data mi).1])
      (tr ++ (free_ptrace_map_info_data mi).2)
    refine ⟨?_, ?_, ?_, ?_⟩
    · rw [h1, free_ptrace_map_info_data_fst]
      simp
    · rw [h2]
      unfold freed_tables at *
      rw [List.filterMap_append]
      have := freed_tables_free_ptrace_map_info_data mi
      unfold freed_tables at this
      rw [this, List.filterMap_cons]
      cases attached_table mi <;> simp
    · rw [h3]
      unfold freed_records at *
      rw [List.filterMap_append]
      have := freed_records_free_ptrace_map_info_data mi
      unfold freed_records at this
      rw [this, List.filterMap_cons]
      cases mi.data <;> simp
    · intro htr
      apply h4
      intro e he
      rcases List.mem_append.mp he with he | he
      · exact htr e he
      · exact is_record_release_free_ptrace_map_info_data mi e he

/-! ## Helper lemmas: visiting order -/

theorem load_ptrace_map_info_data_at_getElem? (env : Env) (cur : List MapInfo) (i j : Nat) :
    (load_ptrace_map_info_data_at env cur i)[j]? =
      if i = j then (cur[j]?).map (fun mi => (load_ptrace_map_info_data env cur i mi).1)
      else cur[j]? := by
  unfold load_ptrace_map_info_data_at
  cases h : cur[i]? with
  | none =>
    by_cases hij : i = j
    · subst hij
      simp [h]
    · simp [hij]
  | some mi =>
    by_cases hij : i = j
    · subst hij
      simp [List.getElem?_set', h]
    · simp [List.getElem?_set', hij]

theorem load_ptrace_map_info_data_idem (env : Env) (l l2 : List MapInfo) (i : Nat)
    (mi : MapInfo) (h : l2.map strip = l.map strip) :
    (load_ptrace_map_info_data env l2 i (load_ptrace_map_info_data env l i mi).1).1 =
      (load_ptrace_map_info_data env l i mi).1 := by
  rw [load_ptrace_map_info_data_congr env l2 l i _ h]
  rcases load_ptrace_map_info_data_cases env l i mi with ⟨he, _⟩ | ⟨he, hx, hr, hok, hv, ha⟩
  · rw [he, he]
  · rw [he]
    exact load_ptrace_map_info_data_attach env l i _ hx hr hok hv ha

theorem LoadInv_step (env : Env) (l cur : List MapInfo) (i : Nat) (h : LoadInv env l cur) :
    LoadInv env l (load_ptrace_map_info_data_at env cur i) ∧
    (load_ptrace_map_info_data_at env cur i)[i]? =
      (l[i]?).map (fun mi => (load_ptrace_map_info_data env l i mi).1) ∧
    ∀ j, cur[j]? = (l[j]?).map (fun mi => (load_ptrace_map_info_data env l j mi).1) →
      (load_ptrace_map_info_data_at env cur i)[j]? =
        (l[j]?).map (fun mi => (load_ptrace_map_info_data env l j mi).1) := by
  obtain ⟨hs, hq⟩ := h
  have hvis : ∀ j, i = j → (load_ptrace_map_info_data_at env cur i)[j]? =
      (l[j]?).map (fun mi => (load_ptrace_map_info_data env l j mi).1) := by
    intro j hij
    subst hij
    rw [load_ptrace_map_info_data_at_getElem?, if_pos rfl]
    rcases hq i with hj | hj
    · rw [hj]
      cases l[i]? with
      | none => rfl
      | some mi =>
        simp only [Option.map_some']
        rw [load_ptrace_map_info_data_congr env cur l i mi hs]
    · rw [hj]
      cases l[i]? with
      | none => rfl
      | some mi =>
        simp only [Option.map_some']
        rw [load_ptrace_map_info_data_idem env l cur i mi hs]
  have hkeep : ∀ j, cur[j]? = (l[j]?).map (fun mi => (load_ptrace_map_info_data env l j mi).1) →
      (load_ptrace_map_info_data_at env cur i)[j]? =
        (l[j]?).map (fun mi => (load_ptrace_map_info_data env l j mi).1) := by
    intro j hj
    by_cases hij : i = j
    · exact hvis j hij
    · rw [load_ptrace_map_info_data_at_getElem?, if_neg hij]
      exact hj
  have hq2 : ∀ j, (load_ptrace_map_info_data_at env cur i)[j]? = l[j]? ∨
      (load_ptrace_map_info_data_at env cur i)[j]? =
        (l[j]?).map (fun mi => (load_ptrace_map_info_data env l j mi).1) := by
    intro j
    by_cases hij : i = j
    · exact Or.inr (hvis j hij)
    · rw [load_ptrace_map_info_data_at_getElem?, if_neg hij]
      exact hq j
  refine ⟨⟨?_, hq2⟩, hvis i rfl, hkeep⟩
  apply List.ext_getElem?
  intro j
  rw [List.getElem?_map, List.getElem?_map]
  rcases hq2 j with hj | hj
  · rw [hj]
  · rw [hj]
    cases l[j]? with
    | none => rfl
    | some mi =>
      simp only [Option.map_some']
      rw [strip_load_ptrace_map_info_data]

theorem load_ptrace_context_in_order_inv (env : Env) (l : List MapInfo) (order : List Nat) :
    ∀ cur, LoadInv env l cur →
      LoadInv env l (load_ptrace_context_in_order env order cur) ∧
      ∀ j, (j ∈ order ∨
          cur[j]? = (l[j]?).map (fun mi => (load_ptrace_map_info_data env l j mi).1)) →
        (load_ptrace_context_in_order env order cur)[j]? =
          (l[j]?).map (fun mi => (load_ptrace_map_info_data env l j mi).1) := by
  induction order with
  | nil =>
    intro cur h
    refine ⟨h, ?_⟩
    intro j hj
    rcases hj with hj | hj
    · exact absurd hj (List.not_mem_nil j)
    · exact hj
  | cons i rest ih =>
    intro cur h
    obtain ⟨hinv, hvis, hkeep⟩ := LoadInv_step env l cur i h
    obtain ⟨hinv2, hall⟩ := ih _ hinv
    unfold load_ptrace_context_in_order at hinv2 hall ⊢
    rw [List.foldl_cons]
    refine ⟨hinv2, ?_⟩
    intro j hj
    apply hall
    rcases hj with hj | hj
    · rcases List.mem_cons.mp hj with rfl | hj
      · exact Or.inr hvis
      · exact Or.inl hj
    · exact Or.inr (hkeep j hj)

theorem load_ptrace_context_in_order_eq (env : Env) (l : List MapInfo) (order : List Nat)
    (hall : ∀ i, i < l.length → i ∈ order) :
    load_ptrace_context_in_order env order l = detect_pass env l 0 l := by
  obtain ⟨⟨_, hq⟩, hvis⟩ := load_ptrace_context_in_order_inv env l order l
    ⟨rfl, fun _ => Or.inl rfl⟩
  apply List.ext_getElem?
  intro j
  rw [detect_pass_getElem?, Nat.zero_add]
  by_cases hj : j < l.length
  · exact hvis j (Or.inl (hall j hj))
  · have hn : l[j]? = none := List.getElem?_eq_none (Nat.le_of_not_lt hj)
    rcases hq j with h | h
    · rw [h, hn]
      rfl
    · exact h

theorem scenarioContext_nonOverlapping : NonOverlapping scenarioContext.map_info_list := by
  have h : disjoint_maps mapA_loaded mapB := by
    intro x hx
    rw [map_contains_iff, map_contains_iff] at hx
    obtain ⟨⟨_, h1⟩, ⟨h2, _⟩⟩ := hx
    have e1 : mapA_loaded.start + mapA_loaded.size = 0x2000 := by decide
    have e2 : mapB.start = 0x2000 := by decide
    omega
  unfold NonOverlapping scenarioContext
  simp [h]

/-! ## Memory accessor: claims C1 to C3 -/

/-- C1: for every environment, mapping list and address `ptr` with
`ptr mod 4 ≠ 0`, `try_get_word` returns `false`, stores `0xffffffff`, and makes
no external call at all (no `is_readable_map`, no memory read); the result is
the same for every other mapping list and memory content. -/
theorem try_get_word_misaligned (env : Env) (memory : Memory) (ptr : Nat)
    (h : ptr % 4 ≠ 0) :
    (try_get_word env memory ptr).ok = false ∧
    (try_get_word env memory ptr).out_value = 0xffffffff ∧
    (try_get_word env memory ptr).trace = [] ∧
    ∀ (env2 : Env) (memory2 : Memory),
      try_get_word env2 memory2 ptr = try_get_word env memory ptr := by
  have key : ∀ (e : Env) (m : Memory), try_get_word e m ptr =
      { ok := false, out_value := 0xffffffff, trace := [] } := by
    intro e m
    unfold try_get_word
    rw [if_pos ((and_three_ne_zero_iff ptr).mpr h)]
  refine ⟨?_, ?_, ?_, ?_⟩
  · rw [key]
  · rw [key]
  · rw [key]
  · intro e m
    rw [key, key]

theorem try_get_word_misaligned_witness :
    (5 : Nat) % 4 ≠ 0 ∧
    (try_get_word scenarioEnv (init_memory [mapA, mapB]) 5).ok = false ∧
    (try_get_word scenarioEnv (init_memory [mapA, mapB]) 5).out_value = 0xffffffff ∧
    (try_get_word scenarioEnv (init_memory [mapA, mapB]) 5).trace = [] ∧
    ∀ (env2 : Env) (memory2 : Memory),
      try_get_word env2 memory2 5 = try_get_word scenarioEnv (init_memory [mapA, mapB]) 5 :=
  ⟨by decide, try_get_word_misaligned scenarioEnv (init_memory [mapA, mapB]) 5 (by decide)⟩

/-- C2: for every mapping list and every address that no readable mapping of
the list contains, aligned or not, `try_get_word` returns `false`, stores
`0xffffffff`, and reads no memory. -/
theorem try_get_word_unmapped (env : Env) (memory : Memory) (ptr : Nat)
    (h : ¬ InReadableMap memory.map_info_list ptr) :
    (try_get_word env memory ptr).ok = false ∧
    (try_get_word env memory ptr).out_value = 0xffffffff ∧
    ∀ a, Event.read_word a ∉ (try_get_word env memory ptr).trace := by
  have hr : is_readable_map memory.map_info_list ptr = false := by
    rw [← Bool.not_eq_true, is_readable_map_iff]
    exact h
  unfold try_get_word
  by_cases ha : ptr &&& 3 ≠ 0
  · rw [if_pos ha]
    simp
  · rw [if_neg ha, hr]
    simp

theorem try_get_word_unmapped_witness :
    ¬ InReadableMap (init_memory [mapA, mapB]).map_info_list 0x500 ∧
    (try_get_word scenarioEnv (init_memory [mapA, mapB]) 0x500).ok = false ∧
    (try_get_word scenarioEnv (init_memory [mapA, mapB]) 0x500).out_value = 0xffffffff ∧
    ∀ a, Event.read_word a ∉ (try_get_word scenarioEnv (init_memory [mapA, mapB]) 0x500).trace :=
  have h : ¬ InReadableMap (init_memory [mapA, mapB]).map_info_list 0x500 := by
    rw [← is_readable_map_iff]
    decide
  ⟨h, try_get_word_unmapped scenarioEnv (init_memory [mapA, mapB]) 0x500 h⟩

/-- C3: for every mapping list and every 4-byte-aligned address inside some
readable mapping of the list, `try_get_word` returns `true` and stores the
32-bit word found in memory at that address, after one search and one read;
hence it returns `true` exactly when the address is aligned and inside a
readable mapping, and the stored value is always that word or `0xffffffff`. -/
theorem try_get_word_readable (env : Env) (memory : Memory) (ptr : Nat) :
    (ptr % 4 = 0 → InReadableMap memory.map_info_list ptr →
      (try_get_word env memory ptr).ok = true ∧
      (try_get_word env memory ptr).out_value = env.word ptr % 2 ^ 32 ∧
      (try_get_word env memory ptr).trace =
        [Event.is_readable_map ptr, Event.read_word ptr]) ∧
    ((try_get_word env memory ptr).ok = true ↔
      (ptr % 4 = 0 ∧ InReadableMap memory.map_info_list ptr)) ∧
    ((try_get_word env memory ptr).out_value = env.word ptr % 2 ^ 32 ∨
      (try_get_word env memory ptr).out_value = 0xffffffff) := by
  have hal : ¬ (ptr &&& 3 ≠ 0) ↔ ptr % 4 = 0 := by
    rw [and_three_ne_zero_iff]
    exact not_not
  unfold try_get_word
  by_cases ha : ptr &&& 3 ≠ 0
  · have hm : ¬ ptr % 4 = 0 := (and_three_ne_zero_iff ptr).mp ha
    rw [if_pos ha]
    simp [hm]
  · have hm : ptr % 4 = 0 := hal.mp ha
    rw [if_neg ha]
    by_cases hr : is_readable_map memory.map_info_list ptr = true
    · have hin := (is_readable_map_iff _ _).mp hr
      simp [hr, hm, hin]
    · have hin : ¬ InReadableMap memory.map_info_list ptr :=
        fun hc => hr ((is_readable_map_iff _ _).mpr hc)
      rw [Bool.not_eq_true] at hr
      simp [hr, hin]

theorem try_get_word_readable_witness :
    (try_get_word scenarioEnv (init_memory [mapA, mapB]) 0x1000).ok = true ∧
    (try_get_word scenarioEnv (init_memory [mapA, mapB]) 0x1000).out_value =
      scenarioEnv.word 0x1000 % 2 ^ 32 ∧
    (try_get_word scenarioEnv (init_memory [mapA, mapB]) 0x1000).trace =
      [Event.is_readable_map 0x1000, Event.read_word 0x1000] :=
  (try_get_word_readable scenarioEnv (init_memory [mapA, mapB]) 0x1000).1 (by decide)
    ((is_readable_map_iff _ _).mp (by decide))

/-! ## Construction: claims C4, C5, C9, C10 -/

/-- C4, as stated, fails: in the scenario with an allocator that refuses the
extension record, the first mapping is executable, readable, has the path
`/lib/a.so` and the signature as first word, and the loader knows a table for
that path, yet after `load_ptrace_context` no symbol table is attached. -/
theorem symbol_table_iff_loader_counterexample :
    ¬ (∀ (env : Env) (pid : Int) (ctx : PtraceContext) (i : Nat) (mi mi2 : MapInfo),
        (load_ptrace_context env pid).1 = some ctx →
        (env.load_map_info_list pid)[i]? = some mi →
        ctx.map_info_list[i]? = some mi2 →
        mi.is_executable = true → mi.is_readable = true → mi.name ≠ "" →
        env.word mi.start % 2 ^ 32 = ELF_MAGIC →
        ((attached_table mi2).isSome = true ↔
          (env.load_symbol_table mi.name).isSome = true)) := by
  intro h
  have h1 := h noRecordEnv 1 { map_info_list := [mapA, mapB] } 0 mapA mapA
    (by decide) (by decide) (by decide) (by decide) (by decide) (by decide) (by decide)
  exact absurd (h1.mpr (by decide)) (by decide)

/-- C4, amended: for every mapping of the enumerated sequence that is
executable, readable, has a non-empty path, a 4-byte-aligned start, a non-zero
size, the module signature as first word, and whose extension record is
allocated, the context built by `load_ptrace_context` holds that mapping with
an extension record containing exactly what `load_symbol_table` returns for its
path; so a symbol table is attached if and only if the loader returns one. -/
theorem symbol_table_iff_loader (env : Env) (pid : Int) (ctx : PtraceContext) (i : Nat)
    (mi : MapInfo)
    (hctx : (load_ptrace_context env pid).1 = some ctx)
    (hi : (env.load_map_info_list pid)[i]? = some mi)
    (hx : mi.is_executable = true) (hr : mi.is_readable = true) (hn : mi.name ≠ "")
    (hw : env.word mi.start % 2 ^ 32 = ELF_MAGIC)
    (hal : mi.start % 4 = 0) (hsz : 0 < mi.size)
    (ha : env.dlcalloc_data i = true) :
    ∃ mi2, ctx.map_info_list[i]? = some mi2 ∧
      mi2 = { mi with data := some { symbol_table := env.load_symbol_table mi.name } } ∧
      attached_table mi2 = env.load_symbol_table mi.name ∧
      ((attached_table mi2).isSome = true ↔
        (env.load_symbol_table mi.name).isSome = true) := by
  have hin : InReadableMap (env.load_map_info_list pid) mi.start :=
    ⟨mi, List.getElem?_mem hi, hr, le_refl _, by omega⟩
  have hok := try_get_word_ptrace_ok env (env.load_map_info_list pid) mi.start hal hin
  have hd := load_ptrace_map_info_data_attach env (env.load_map_info_list pid) i mi hx hr
    hok.1 (hok.2.trans hw) ha
  rw [if_pos hn] at hd
  have hg := load_ptrace_context_getElem? env pid ctx hctx i
  rw [hi, Option.map_some', hd] at hg
  exact ⟨_, hg, rfl, rfl, Iff.rfl⟩

theorem symbol_table_iff_loader_witness :
    ∃ mi2, ({ map_info_list := [{ mapA with data := some { symbol_table := some { id := 1 } } },
        mapB] } : PtraceContext).map_info_list[0]? = some mi2 ∧
      mi2 = { mapA with data := some { symbol_table := scenarioEnv.load_symbol_table mapA.name } } ∧
      attached_table mi2 = scenarioEnv.load_symbol_table mapA.name ∧
      ((attached_table mi2).isSome = true ↔
        (scenarioEnv.load_symbol_table mapA.name).isSome = true) :=
  symbol_table_iff_loader scenarioEnv 1
    { map_info_list := [{ mapA with data := some { symbol_table := some { id := 1 } } }, mapB] }
    0 mapA (by decide) (by decide) (by decide) (by decide) (by decide) (by decide) (by decide)
    (by decide) (by decide)

/-- C5, as stated, fails: the path-less mapping `mapAnon` is executable and
readable and starts with the signature; `load_ptrace_context` attaches an
extension record (holding no symbol table) to it, so its slot is not empty. -/
theorem no_extension_counterexample :
    ¬ (∀ (env : Env) (pid : Int) (ctx : PtraceContext) (i : Nat) (mi mi2 : MapInfo),
        (load_ptrace_context env pid).1 = some ctx →
        (env.load_map_info_list pid)[i]? = some mi →
        ctx.map_info_list[i]? = some mi2 →
        mi.data = none →
        (mi.is_executable = false ∨ mi.is_readable = false ∨ mi.name = "" ∨
          env.word mi.start % 2 ^ 32 ≠ ELF_MAGIC) →
        mi2.data = none) := by
  intro h
  have h1 := h anonEnv 1 { map_info_list := [{ mapAnon with data := some { symbol_table := none } }] }
    0 mapAnon { mapAnon with data := some { symbol_table := none } }
    (by decide) (by decide) (by decide) (by decide) (Or.inr (Or.inr (Or.inl (by decide))))
  exact absurd h1 (by decide)

/-- C5, amended: a mapping that is enumerated with an empty extension slot and
is not executable, or not readable, or whose first word is not the module
signature, is left untouched by `load_ptrace_context`, so its slot is empty
after construction.  A mapping enumerated with an empty slot and an empty path
never gets a symbol table: its slot stays empty or holds an extension record
without symbol table, and it does hold such a record when the mapping is
executable, readable, 4-byte aligned, of non-zero size, starts with the
signature, and the record is allocated. -/
theorem no_extension (env : Env) (pid : Int) (ctx : PtraceContext) (i : Nat) (mi : MapInfo)
    (hctx : (load_ptrace_context env pid).1 = some ctx)
    (hi : (env.load_map_info_list pid)[i]? = some mi)
    (hd : mi.data = none) :
    ((mi.is_executable = false ∨ mi.is_readable = false ∨
        env.word mi.start % 2 ^ 32 ≠ ELF_MAGIC) →
      ctx.map_info_list[i]? = some mi) ∧
    (mi.name = "" →
      (∃ mi2, ctx.map_info_list[i]? = some mi2 ∧ attached_table mi2 = none ∧
        (mi2.data = none ∨ mi2.data = some { symbol_table := none })) ∧
      (mi.is_executable = true → mi.is_readable = true → mi.start % 4 = 0 → 0 < mi.size →
        env.word mi.start % 2 ^ 32 = ELF_MAGIC → env.dlcalloc_data i = true →
        ctx.map_info_list[i]? = some { mi with data := some { symbol_table := none } })) := by
  have hg := load_ptrace_context_getElem? env pid ctx hctx i
  rw [hi, Option.map_some'] at hg
  constructor
  · intro h
    rw [hg]
    congr 1
    apply load_ptrace_map_info_data_skip
    rcases h with h | h | h
    · exact Or.inl h
    · exact Or.inr (Or.inl h)
    · rcases try_get_word_ptrace_value env (env.load_map_info_list pid) mi.start with hv | hv
      · exact Or.inr (Or.inr (Or.inl hv))
      · exact Or.inr (Or.inr (Or.inr (Or.inl (by rw [hv]; exact h))))
  · intro hn
    constructor
    · refine ⟨_, hg, ?_⟩
      rcases load_ptrace_map_info_data_cases env (env.load_map_info_list pid) i mi with
        ⟨he, _⟩ | ⟨he, _⟩
      · rw [he]
        simp [attached_table, hd]
      · rw [he]
        simp [hn, attached_table]
    · intro hx hr hal hsz hw ha
      have hin : InReadableMap (env.load_map_info_list pid) mi.start :=
        ⟨mi, List.getElem?_mem hi, hr, le_refl _, by omega⟩
      have hok := try_get_word_ptrace_ok env (env.load_map_info_list pid) mi.start hal hin
      rw [hg, load_ptrace_map_info_data_attach env _ i mi hx hr hok.1 (hok.2.trans hw) ha]
      simp [hn]

theorem no_extension_witness :
    ({ map_info_list := [{ mapA with data := some { symbol_table := some { id := 1 } } },
        mapB] } : PtraceContext).map_info_list[1]? = some mapB ∧
    (∃ mi2, ({ map_info_list := [{ mapAnon with data := some { symbol_table := none } }] } :
        PtraceContext).map_info_list[0]? = some mi2 ∧ attached_table mi2 = none ∧
        (mi2.data = none ∨ mi2.data = some { symbol_table := none })) ∧
    ({ map_info_list := [{ mapAnon with data := some { symbol_table := none } }] } :
        PtraceContext).map_info_list[0]? =
      some { mapAnon with data := some { symbol_table := none } } :=
  ⟨(no_extension scenarioEnv 1
      { map_info_list := [{ mapA with data := some { symbol_table := some { id := 1 } } }, mapB] }
      1 mapB (by decide) (by decide) (by decide)).1 (Or.inr (Or.inr (by decide))),
   ((no_extension anonEnv 1
      { map_info_list := [{ mapAnon with data := some { symbol_table := none } }] }
      0 mapAnon (by decide) (by decide) (by decide)).2 (by decide)).1,
   ((no_extension anonEnv 1
      { map_info_list := [{ mapAnon with data := some { symbol_table := none } }] }
      0 mapAnon (by decide) (by decide) (by decide)).2 (by decide)).2
      (by decide) (by decide) (by decide) (by decide) (by decide) (by decide)⟩

/-- C9: `load_ptrace_context` returns null exactly when the allocation of the
context fails.  Whatever the enumerated list (empty or not), the memory
contents, the outcomes of the extension-record allocations and the answers of
the loader, a successful context allocation yields a context that holds every
enumerated mapping, in order, differing at most in the extension slot; a
mapping whose word read or record allocation failed is untouched (its slot is
as enumerated, that is empty), and one for which the loader has no table has
its slot untouched or filled with an extension without symbol table. -/
theorem load_ptrace_context_null_iff (env : Env) (pid : Int) :
    ((load_ptrace_context env pid).1 = none ↔ env.dlcalloc_context = false) ∧
    (env.dlcalloc_context = true →
      ∃ ctx, (load_ptrace_context env pid).1 = some ctx ∧
        ctx.map_info_list.length = (env.load_map_info_list pid).length ∧
        ∀ (i : Nat) (mi : MapInfo), (env.load_map_info_list pid)[i]? = some mi →
          ∃ mi2, ctx.map_info_list[i]? = some mi2 ∧ strip mi2 = strip mi ∧
            (mi2.data = mi.data ∨ mi2.data = some { symbol_table := none } ∨
              ∃ t, env.load_symbol_table mi.name = some t ∧
                mi2.data = some { symbol_table := some t }) ∧
            ((try_get_word_ptrace env (env.load_map_info_list pid) mi.start).ok = false →
              mi2 = mi) ∧
            (env.dlcalloc_data i = false → mi2 = mi) ∧
            (env.load_symbol_table mi.name = none →
              mi2.data = mi.data ∨ mi2.data = some { symbol_table := none })) := by
  constructor
  · unfold load_ptrace_context
    cases hc : env.dlcalloc_context <;> simp
  · intro hc
    refine ⟨_, load_ptrace_context_list env pid hc, detect_pass_length env _ _ 0, ?_⟩
    intro i mi hi
    refine ⟨(load_ptrace_map_info_data env (env.load_map_info_list pid) i mi).1, ?_,
      strip_load_ptrace_map_info_data env _ i mi, ?_⟩
    · simp only [detect_pass_getElem?, Nat.zero_add, hi, Option.map_some']
    · rcases load_ptrace_map_info_data_cases env (env.load_map_info_list pid) i mi with
        ⟨he, _⟩ | ⟨he, _, _, hok, _, ha⟩
      · rw [he]
        exact ⟨Or.inl rfl, fun _ => rfl, fun _ => rfl, fun _ => Or.inl rfl⟩
      · rw [he]
        refine ⟨?_, ?_, ?_, ?_⟩
        · by_cases hn : mi.name ≠ ""
          · rw [if_pos hn]
            cases hl : env.load_symbol_table mi.name with
            | none => exact Or.inr (Or.inl rfl)
            | some t => exact Or.inr (Or.inr ⟨t, rfl, rfl⟩)
          · rw [if_neg hn]
            exact Or.inr (Or.inl rfl)
        · intro hf
          rw [hf] at hok
          exact Bool.noConfusion hok
        · intro hf
          rw [hf] at ha
          exact Bool.noConfusion ha
        · intro hl
          right
          rw [hl]
          simp

theorem load_ptrace_context_null_iff_witness :
    ∃ ctx, (load_ptrace_context noRecordEnv 1).1 = some ctx ∧
      ctx.map_info_list.length = (noRecordEnv.load_map_info_list 1).length ∧
      ∀ (i : Nat) (mi : MapInfo), (noRecordEnv.load_map_info_list 1)[i]? = some mi →
        ∃ mi2, ctx.map_info_list[i]? = some mi2 ∧ strip mi2 = strip mi ∧
          (mi2.data = mi.data ∨ mi2.data = some { symbol_table := none } ∨
            ∃ t, noRecordEnv.load_symbol_table mi.name = some t ∧
              mi2.data = some { symbol_table := some t }) ∧
          ((try_get_word_ptrace noRecordEnv (noRecordEnv.load_map_info_list 1) mi.start).ok = false →
            mi2 = mi) ∧
          (noRecordEnv.dlcalloc_data i = false → mi2 = mi) ∧
          (noRecordEnv.load_symbol_table mi.name = none →
            mi2.data = mi.data ∨ mi2.data = some { symbol_table := none }) :=
  (load_ptrace_context_null_iff noRecordEnv 1).2 (by decide)

/-- C10: the loop of `load_ptrace_context`, which reads through the list whose
slots it is filling, builds the same context as the two-phase construction.
The resulting list holds the enumerated mappings in the same order with the
same start, size, flags and path, and the mapping at each position is the
result of running `load_ptrace_map_info_data` for it against the enumerated,
unmodified list.  That result is the same against any list that differs from
the enumerated one only in extension slots, and processing the positions in
any other order that visits each of them yields the same list. -/
theorem load_ptrace_context_two_phase_eq (env : Env) (pid : Int) :
    (load_ptrace_context env pid).1 = load_ptrace_context_two_phase env pid ∧
    (∀ ctx, (load_ptrace_context env pid).1 = some ctx →
      ctx.map_info_list.map strip = (env.load_map_info_list pid).map strip ∧
      (∀ i, ctx.map_info_list[i]? = ((env.load_map_info_list pid)[i]?).map
        (fun mi => (load_ptrace_map_info_data env (env.load_map_info_list pid) i mi).1)) ∧
      (∀ order : List Nat, (∀ i, i < (env.load_map_info_list pid).length → i ∈ order) →
        load_ptrace_context_in_order env order (env.load_map_info_list pid) =
          ctx.map_info_list)) ∧
    (∀ (other : List MapInfo) (i : Nat) (mi : MapInfo),
      other.map strip = (env.load_map_info_list pid).map strip →
      load_ptrace_map_info_data env other i mi =
        load_ptrace_map_info_data env (env.load_map_info_list pid) i mi) := by
  refine ⟨?_, ?_, ?_⟩
  · unfold load_ptrace_context_two_phase
    by_cases hc : env.dlcalloc_context = true
    · rw [load_ptrace_context_list env pid hc, if_pos hc]
    · unfold load_ptrace_context
      rw [if_neg hc, if_neg hc]
  · intro ctx hctx
    have hidx := load_ptrace_context_getElem? env pid ctx hctx
    refine ⟨?_, hidx, ?_⟩
    · apply List.ext_getElem?
      intro i
      rw [List.getElem?_map, List.getElem?_map, hidx i]
      cases (env.load_map_info_list pid)[i]? with
      | none => rfl
      | some mi =>
        simp only [Option.map_some']
        rw [strip_load_ptrace_map_info_data]
    · intro order hall
      rw [load_ptrace_context_in_order_eq env _ order hall]
      apply List.ext_getElem?
      intro i
      rw [hidx i, detect_pass_getElem?, Nat.zero_add]
  · intro other i mi h
    exact load_ptrace_map_info_data_congr env other _ i mi h

theorem load_ptrace_context_two_phase_eq_witness :
    scenarioContext.map_info_list.map strip = (scenarioEnv.load_map_info_list 1).map strip ∧
    (∀ i, scenarioContext.map_info_list[i]? = ((scenarioEnv.load_map_info_list 1)[i]?).map
      (fun mi => (load_ptrace_map_info_data scenarioEnv (scenarioEnv.load_map_info_list 1) i mi).1)) ∧
    load_ptrace_context_in_order scenarioEnv [1, 0] (scenarioEnv.load_map_info_list 1) =
      scenarioContext.map_info_list :=
  have h := (load_ptrace_context_two_phase_eq scenarioEnv 1).2.1 scenarioContext (by decide)
  ⟨h.1, h.2.1, h.2.2 [1, 0] (by decide)⟩

/-! ## Teardown: claim C8 -/

/-- C8: `free_ptrace_context` hands to `free_symbol_table` exactly the tables
attached to the mappings, each once and in mapping order (nothing for a
mapping without table), hands to `dlfree` exactly the extension records of the
mappings, leaves every extension slot empty and the rest of each mapping
untouched, and then calls `free_map_info_list` once, as its last call, after
every release of a table or record. -/
theorem free_ptrace_context_releases (context : PtraceContext) :
    (free_ptrace_context context).1 = context.map_info_list.map strip ∧
    (∀ mi ∈ (free_ptrace_context context).1, mi.data = none) ∧
    freed_tables (free_ptrace_context context).2 =
      context.map_info_list.filterMap attached_table ∧
    freed_records (free_ptrace_context context).2 =
      context.map_info_list.filterMap (fun mi => mi.data) ∧
    ∃ before, (free_ptrace_context context).2 =
        before ++ [Event.free_map_info_list (context.map_info_list.map strip)] ∧
      ∀ e ∈ before, is_record_release e = true := by
  obtain ⟨h1, h2, h3, h4⟩ := free_ptrace_context_loop_eq context.map_info_list [] []
  rw [List.nil_append] at h1
  have hT : ∀ tr : List Event, ∀ l : List MapInfo,
      freed_tables (tr ++ [Event.free_map_info_list l]) = freed_tables tr := by
    intro tr l
    unfold freed_tables
    rw [List.filterMap_append]
    simp
  have hR : ∀ tr : List Event, ∀ l : List MapInfo,
      freed_records (tr ++ [Event.free_map_info_list l]) = freed_records tr := by
    intro tr l
    unfold freed_records
    rw [List.filterMap_append]
    simp
  unfold free_ptrace_context
  dsimp only
  refine ⟨h1, ?_, ?_, ?_, ?_⟩
  · intro mi hmi
    rw [h1] at hmi
    obtain ⟨m, _, rfl⟩ := List.mem_map.mp hmi
    rfl
  · rw [hT, h2]
    rfl
  · rw [hR, h3]
    rfl
  · refine ⟨_, ?_, h4 (fun e he => absurd he (List.not_mem_nil e))⟩
    rw [h1]

theorem free_ptrace_context_releases_witness :
    (free_ptrace_context scenarioContext).1 = [mapA, mapB] ∧
    freed_tables (free_ptrace_context scenarioContext).2 = [{ id := 1 }] ∧
    freed_records (free_ptrace_context scenarioContext).2 =
      [{ symbol_table := some { id := 1 } }] ∧
    (free_ptrace_context scenarioContext).2 =
      [Event.free_symbol_table { id := 1 }, Event.dlfree { symbol_table := some { id := 1 } },
        Event.free_map_info_list [mapA, mapB]] :=
  ⟨(free_ptrace_context_releases scenarioContext).1.trans (by decide),
   (free_ptrace_context_releases scenarioContext).2.2.1.trans (by decide),
   (free_ptrace_context_releases scenarioContext).2.2.2.1.trans (by decide),
   by decide⟩

/-! ## Resolution: claims C6 and C7 -/

/-- C6: when `find_map_info` finds no mapping for the address (no mapping of
the context contains it), `find_symbol_ptrace` returns `(none, none)`; when the
address is inside the mapping `M` (the one `find_map_info` returns, which is
the only candidate in a non-overlapping sequence) and `M` has no extension
record or a record without symbol table, it returns `(M, none)`.  In both cases
the only external call is the mapping search: `find_symbol` is not called. -/
theorem find_symbol_ptrace_no_symbol (env : Env) (context : PtraceContext) (addr : Nat) :
    (find_map_info context.map_info_list addr = none →
      find_symbol_ptrace env context addr =
        { out_map_info := none, out_symbol := none, trace := [Event.find_map_info addr] }) ∧
    ((∀ m ∈ context.map_info_list, ¬ (m.start ≤ addr ∧ addr < m.start + m.size)) →
      find_symbol_ptrace env context addr =
        { out_map_info := none, out_symbol := none, trace := [Event.find_map_info addr] }) ∧
    (∀ M : MapInfo, (M.data = none ∨ M.data = some { symbol_table := none }) →
      (find_map_info context.map_info_list addr = some M →
        find_symbol_ptrace env context addr =
          { out_map_info := some M, out_symbol := none,
            trace := [Event.find_map_info addr] }) ∧
      (NonOverlapping context.map_info_list → M ∈ context.map_info_list →
        M.start ≤ addr → addr < M.start + M.size →
        find_symbol_ptrace env context addr =
          { out_map_info := some M, out_symbol := none,
            trace := [Event.find_map_info addr] })) := by
  have hnone : find_map_info context.map_info_list addr = none →
      find_symbol_ptrace env context addr =
        { out_map_info := none, out_symbol := none, trace := [Event.find_map_info addr] } := by
    intro h
    unfold find_symbol_ptrace
    rw [h]
  have hsome : ∀ M : MapInfo, (M.data = none ∨ M.data = some { symbol_table := none }) →
      find_map_info context.map_info_list addr = some M →
      find_symbol_ptrace env context addr =
        { out_map_info := some M, out_symbol := none, trace := [Event.find_map_info addr] } := by
    intro M hd h
    unfold find_symbol_ptrace
    rw [h]
    rcases hd with hd | hd <;> simp only [hd]
  refine ⟨hnone, ?_, ?_⟩
  · intro h
    exact hnone ((find_map_info_none_iff _ _).mpr h)
  · intro M hd
    refine ⟨hsome M hd, ?_⟩
    intro hdis hmem hlo hhi
    exact hsome M hd (find_map_info_of_mem _ addr M hdis hmem
      ((map_contains_iff M addr).mpr ⟨hlo, hhi⟩))

theorem find_symbol_ptrace_no_symbol_witness :
    find_symbol_ptrace scenarioEnv scenarioContext 0x500 =
      { out_map_info := none, out_symbol := none, trace := [Event.find_map_info 0x500] } ∧
    find_symbol_ptrace scenarioEnv scenarioContext 0x2050 =
      { out_map_info := some mapB, out_symbol := none,
        trace := [Event.find_map_info 0x2050] } ∧
    find_symbol_ptrace scenarioEnv scenarioContext 0x2050 =
      { out_map_info := some mapB, out_symbol := none,
        trace := [Event.find_map_info 0x2050] } :=
  ⟨(find_symbol_ptrace_no_symbol scenarioEnv scenarioContext 0x500).1 (by decide),
   ((find_symbol_ptrace_no_symbol scenarioEnv scenarioContext 0x2050).2.2 mapB
      (Or.inl (by decide))).1 (by decide),
   ((find_symbol_ptrace_no_symbol scenarioEnv scenarioContext 0x2050).2.2 mapB
      (Or.inl (by decide))).2 scenarioContext_nonOverlapping (by decide) (by decide)
      (by decide)⟩

/-- C7: on a platform of any pointer width, for every address (a `uintptr_t`
value of that platform) inside the mapping `M` of the context (the one
`find_map_info` returns, which is the only candidate in a non-overlapping
sequence) that has the symbol table `T` attached, `find_symbol_ptrace` returns
`M` together with whatever `find_symbol (T, addr − M.start)` returns, symbol or
none; the subtraction does not wrap because `M.start ≤ addr`, and `find_symbol`
is called once, with that table and that offset. -/
theorem find_symbol_ptrace_symbol (env : Env) (context : PtraceContext) (addr : Nat)
    (M : MapInfo) (T : SymbolTable)
    (hT : M.data = some { symbol_table := some T })
    (hw : addr < 2 ^ env.uintptr_bits) :
    (find_map_info context.map_info_list addr = some M →
      M.start ≤ addr ∧ uintptr_sub env.uintptr_bits addr M.start = addr - M.start ∧
      find_symbol_ptrace env context addr =
        { out_map_info := some M, out_symbol := env.find_symbol T (addr - M.start),
          trace := [Event.find_map_info addr, Event.find_symbol T (addr - M.start)] }) ∧
    (NonOverlapping context.map_info_list → M ∈ context.map_info_list →
      M.start ≤ addr → addr < M.start + M.size →
      find_symbol_ptrace env context addr =
        { out_map_info := some M, out_symbol := env.find_symbol T (addr - M.start),
          trace := [Event.find_map_info addr, Event.find_symbol T (addr - M.start)] }) := by
  have hsome : find_map_info context.map_info_list addr = some M →
      M.start ≤ addr ∧ uintptr_sub env.uintptr_bits addr M.start = addr - M.start ∧
      find_symbol_ptrace env context addr =
        { out_map_info := some M, out_symbol := env.find_symbol T (addr - M.start),
          trace := [Event.find_map_info addr, Event.find_symbol T (addr - M.start)] } := by
    intro h
    have hlo := (find_map_info_some _ addr M h).2.1
    have hsub := uintptr_sub_eq env.uintptr_bits addr M.start hlo hw
    refine ⟨hlo, hsub, ?_⟩
    unfold find_symbol_ptrace
    rw [h]
    simp only [hT, hsub]
  refine ⟨hsome, ?_⟩
  intro hdis hmem hlo hhi
  exact (hsome (find_map_info_of_mem _ addr M hdis hmem
    ((map_contains_iff M addr).mpr ⟨hlo, hhi⟩))).2.2

theorem find_symbol_ptrace_symbol_witness :
    (mapA_loaded.start ≤ 0x1050 ∧
      uintptr_sub scenarioEnv.uintptr_bits 0x1050 mapA_loaded.start =
        0x1050 - mapA_loaded.start ∧
      find_symbol_ptrace scenarioEnv scenarioContext 0x1050 =
        { out_map_info := some mapA_loaded,
          out_symbol := scenarioEnv.find_symbol { id := 1 } (0x1050 - mapA_loaded.start),
          trace := [Event.find_map_info 0x1050,
            Event.find_symbol { id := 1 } (0x1050 - mapA_loaded.start)] }) ∧
    find_symbol_ptrace scenarioEnv scenarioContext 0x1050 =
      { out_map_info := some mapA_loaded,
        out_symbol := scenarioEnv.find_symbol { id := 1 } (0x1050 - mapA_loaded.start),
        trace := [Event.find_map_info 0x1050,
          Event.find_symbol { id := 1 } (0x1050 - mapA_loaded.start)] } ∧
    (mapWide.start ≤ 0x100001040 ∧
      uintptr_sub wideEnv.uintptr_bits 0x100001040 mapWide.start =
        0x100001040 - mapWide.start ∧
      find_symbol_ptrace wideEnv wideContext 0x100001040 =
        { out_map_info := some mapWide,
          out_symbol := wideEnv.find_symbol { id := 1 } (0x100001040 - mapWide.start),
          trace := [Event.find_map_info 0x100001040,
            Event.find_symbol { id := 1 } (0x100001040 - mapWide.start)] }) :=
  ⟨(find_symbol_ptrace_symbol scenarioEnv scenarioContext 0x1050 mapA_loaded { id := 1 }
      (by decide) (by decide)).1 (by decide),
   (find_symbol_ptrace_symbol scenarioEnv scenarioContext 0x1050 mapA_loaded { id := 1 }
      (by decide) (by decide)).2 scenarioContext_nonOverlapping (by decide) (by decide)
      (by decide),
   (find_symbol_ptrace_symbol wideEnv wideContext 0x100001040 mapWide { id := 1 }
      (by decide) (by decide)).1 (by decide)⟩

end DebugPtrace
